import Mathlib

/-!
Shallow embedding of the training loops of this repository.

The repository contains two training loops:

* `train_one_epoch` together with a multi-epoch driver cell
  (training notebook): per batch it zeroes gradients, runs the model,
  computes the loss, backpropagates, steps the optimizer, accumulates
  `running_loss`, and every `N` batches (the source fixes `N = 1000`)
  reports `running_loss / N` tagged with
  `epoch_index * len(training_loader) + i + 1` and resets the
  accumulator.  The driver runs `EPOCHS` epochs; after each epoch it runs
  a validation loop, computes `avg_vloss = running_vloss / (i + 1)`
  (`i` being the validation loop variable), emits a combined scalar
  report tagged `epoch_number + 1`, saves the model state when
  `avg_vloss < best_vloss` (updating `best_vloss` at the same time),
  and increments the global `epoch_number`.

* a single-epoch loop (TensorBoard notebook): same per-batch training
  steps, but every `N` batches it runs a full validation pass in the
  middle of the epoch, reports `running_loss / N` and
  `running_vloss / len(validation_loader)` tagged
  `epoch * len(training_loader) + i`, and resets the accumulator.

The model, loss function and optimizer are external collaborators; they
are abstracted as a `Framework`: `fwdLoss p mode b` is the composite
`loss_fn(model(inputs), labels)` read off as the scalar `loss.item()`
(with `mode` the flag set by `model.train(True/False)`), and
`updParams p b` is the parameter update performed by
`loss.backward(); optimizer.step()`.  Both may fail (shape mismatches,
numeric errors, data-loading errors), hence `Except ε`.  Loss scalars
are modelled as rationals.  The reporting interval is kept as a
parameter `N`; the source instantiates it with `1000`
(`sourceReportInterval`).
-/

/-- Per-batch loss values are plain scalars (`loss.item()`), modelled as `ℚ`. -/
abbrev Loss : Type := ℚ

/-- External collaborators of the training loops: the scoring function
composed with the loss functional (`fwdLoss`, taking the mode flag set by
`model.train`), and the gradient-driven parameter update (`updParams`).
`P` is the type of the model's parameter state, `B` the type of a batch,
`ε` the type of errors the framework may raise. -/
structure Framework (P B ε : Type) where
  fwdLoss : P → Bool → B → Except ε Loss
  updParams : P → B → Except ε P

/-- Observable emissions of a run: processing of a training batch,
a training-progress report (`add_scalar('Loss/train', mean, step)`),
evaluation of a validation batch, a combined
training/validation report (`add_scalars(..., tag)`), and the saving of
a model snapshot (`torch.save(...)`, tagged with the `epoch_number` used
in the file name).  Epoch/batch indices record which iteration emitted
the event. -/
inductive Event where
  | trainBatch (epoch i : ℕ)
  | trainReport (epoch : ℕ) (mean : Loss) (step : ℕ)
  | valBatch (epoch i : ℕ)
  | epochReport (tag : ℕ) (trainMean valMean : Loss)
  | save (epoch : ℕ)
deriving DecidableEq, Repr

/-- Errors a run can end with: an error raised by a collaborator,
propagated as is (`ext`), or the `NameError` raised when
`avg_vloss = running_vloss / (i + 1)` references the validation loop
variable `i` after a loop that never ran. -/
inductive RunError (ε : Type) where
  | ext : ε → RunError ε
  | unboundLoopVar : RunError ε
deriving DecidableEq, Repr

/-- The source fixes the reporting interval: `if i % 1000 == 999`. -/
def sourceReportInterval : ℕ := 1000

/-- Body of `train_one_epoch` (training notebook): fold over the
enumerated training batches starting at index `i`, threading the
parameters `p`, the accumulator `running_loss` `rl` and `last_loss`
`ll`; returns the final parameters, accumulator, `last_loss` (the
function's return value) and the emitted events.  `N` is the reporting
interval (source: 1000), `L` is `len(training_loader)` and `e` the
`epoch_index` argument, both used for the report's step tag
`e * L + i + 1`. -/
def trainLoopAux {P B ε : Type} (fw : Framework P B ε) (N L e : ℕ) :
    ℕ → P → Loss → Loss → List B → Except ε (P × Loss × Loss × List Event)
  | _, p, rl, ll, [] => .ok (p, rl, ll, [])
  | i, p, rl, ll, b :: bs => do
      let loss ← fw.fwdLoss p true b
      let p' ← fw.updParams p b
      if i % N = N - 1 then
        let last := (rl + loss) / (N : ℚ)
        let (pf, rlf, llf, evs) ← trainLoopAux fw N L e (i + 1) p' 0 last bs
        .ok (pf, rlf, llf,
          .trainBatch e i :: .trainReport e last (e * L + i + 1) :: evs)
      else
        let (pf, rlf, llf, evs) ← trainLoopAux fw N L e (i + 1) p' (rl + loss) ll bs
        .ok (pf, rlf, llf, .trainBatch e i :: evs)

/-- The function `train_one_epoch(epoch_index, tb_writer)`:
`running_loss = 0.; last_loss = 0.` then the loop over
`enumerate(training_loader)`.  Result components: final parameters,
final `running_loss`, the returned `last_loss`, emitted events. -/
def train_one_epoch {P B ε : Type} (fw : Framework P B ε) (N e : ℕ)
    (p : P) (batches : List B) : Except ε (P × Loss × Loss × List Event) :=
  trainLoopAux fw N batches.length e 0 p 0 0 batches

/-- Validation loop of the per-epoch cell:
`for i, vdata in enumerate(validation_loader): ... running_vloss += vloss`.
Threads the parameters (the body only reads them), the accumulator, and
the last value of the loop variable `i` (`none` while the loop has not
run).  `e` is the current `epoch_number`, used only to tag events. -/
def valLoopAux {P B ε : Type} (fw : Framework P B ε) (e : ℕ) :
    ℕ → P → Loss → Option ℕ → List B → Except ε (P × Loss × Option ℕ × List Event)
  | _, p, rv, li, [] => .ok (p, rv, li, [])
  | i, p, rv, _, b :: bs => do
      let l ← fw.fwdLoss p false b
      let (pf, rvf, lif, evs) ← valLoopAux fw e (i + 1) p (rv + l) (some i) bs
      .ok (pf, rvf, lif, .valBatch e i :: evs)

/-- A whole validation pass: `running_vloss = 0.0` then the loop. -/
def valPass {P B ε : Type} (fw : Framework P B ε) (e : ℕ) (p : P)
    (batches : List B) : Except ε (P × Loss × Option ℕ × List Event) :=
  valLoopAux fw e 0 p 0 none batches

/-- Mutable state of the multi-epoch driver cell: the model parameters,
the global `epoch_number`, `best_vloss`, and the list of snapshots
persisted by `torch.save` (each recorded with the `epoch_number` in its
file name and the saved parameter state). -/
structure RunState (P : Type) where
  params : P
  epoch_number : ℕ
  best_vloss : Loss
  saved : List (ℕ × P)
deriving DecidableEq, Repr

/-- One iteration of the driver loop `for epoch in range(EPOCHS)`:
`model.train(True)`, `avg_loss = train_one_epoch(epoch_number, writer)`,
`model.train(False)`, the validation loop,
`avg_vloss = running_vloss / (i + 1)` (a `NameError` when the validation
loader is empty, since `i` is then unbound), the combined
`add_scalars` report tagged `epoch_number + 1`, the conditional
`best_vloss`/`torch.save` update, then `epoch_number += 1`. -/
def epochBody {P B ε : Type} (fw : Framework P B ε) (N : ℕ)
    (tbs vbs : List B) (s : RunState P) :
    Except (RunError ε) (RunState P × List Event) := do
  let (p1, _rl, avg_loss, tevs) ←
    (train_one_epoch fw N s.epoch_number s.params tbs).mapError .ext
  let (p2, running_vloss, li, vevs) ←
    (valPass fw s.epoch_number p1 vbs).mapError .ext
  match li with
  | none => .error .unboundLoopVar
  | some i =>
      let avg_vloss := running_vloss / ((i : ℚ) + 1)
      let evs := tevs ++ vevs ++
        [.epochReport (s.epoch_number + 1) avg_loss avg_vloss]
      if avg_vloss < s.best_vloss then
        .ok ({ params := p2, epoch_number := s.epoch_number + 1,
               best_vloss := avg_vloss,
               saved := s.saved ++ [(s.epoch_number, p2)] },
             evs ++ [.save s.epoch_number])
      else
        .ok ({ params := p2, epoch_number := s.epoch_number + 1,
               best_vloss := s.best_vloss, saved := s.saved }, evs)

/-- The driver loop, iterated `E` times from state `s`. -/
def runEpochs {P B ε : Type} (fw : Framework P B ε) (N : ℕ)
    (tbs vbs : List B) : ℕ → RunState P →
    Except (RunError ε) (RunState P × List Event)
  | 0, s => .ok (s, [])
  | E + 1, s => do
      let (s1, evs1) ← epochBody fw N tbs vbs s
      let (s2, evs2) ← runEpochs fw N tbs vbs E s1
      .ok (s2, evs1 ++ evs2)

/-- The driver cell as executed from its initializations:
`best_vloss = 1_000_000.`, `saved` empty, parameters `p0` and the global
`epoch_number` `e0` (initialized to 0 in a separate cell so further
epochs can be added to the same run). -/
def trainingRun {P B ε : Type} (fw : Framework P B ε) (N : ℕ)
    (tbs vbs : List B) (E : ℕ) (p0 : P) (e0 : ℕ) :
    Except (RunError ε) (RunState P × List Event) :=
  runEpochs fw N tbs vbs E
    { params := p0, epoch_number := e0, best_vloss := 1000000, saved := [] }

/-- Validation pass of the TensorBoard notebook's loop, run in the middle
of the training loop: `net.train(False)`, loop over
`enumerate(validation_loader, 0)` accumulating `vloss.item()`,
`net.train(True)`.  Parameters are only read. -/
def tbValLoop {P B ε : Type} (fw : Framework P B ε) (e : ℕ) :
    ℕ → P → Loss → List B → Except ε (Loss × List Event)
  | _, _, rv, [] => .ok (rv, [])
  | j, p, rv, v :: vs => do
      let l ← fw.fwdLoss p false v
      let (rvf, evs) ← tbValLoop fw e (j + 1) p (rv + l) vs
      .ok (rvf, .valBatch e j :: evs)

/-- Training loop of the TensorBoard notebook (inside
`for epoch in range(1)`): per batch the same training steps, and every
`N` batches (source: 1000) a full validation pass interleaved into the
epoch, a combined report of `running_loss / N` and
`running_vloss / len(validation_loader)` tagged
`epoch * len(training_loader) + i`, and an accumulator reset.  `e` is
the (single) epoch index 0, `L` is `len(training_loader)`.  Note: when
the validation loader is empty, the source would raise
`ZeroDivisionError`; no claim exercises that path and `ℚ` division by
zero is total here. -/
def tbTrainLoop {P B ε : Type} (fw : Framework P B ε) (N L e : ℕ)
    (vbs : List B) :
    ℕ → P → Loss → List B → Except ε (P × Loss × List Event)
  | _, p, rl, [] => .ok (p, rl, [])
  | i, p, rl, b :: bs => do
      let loss ← fw.fwdLoss p true b
      let p' ← fw.updParams p b
      if i % N = N - 1 then
        let (rv, vevs) ← tbValLoop fw e 0 p' 0 vbs
        let avg := (rl + loss) / (N : ℚ)
        let avgv := rv / (vbs.length : ℚ)
        let (pf, rlf, evs) ← tbTrainLoop fw N L e vbs (i + 1) p' 0 bs
        .ok (pf, rlf,
          .trainBatch e i :: (vevs ++
            (.epochReport (e * L + i) avg avgv :: evs)))
      else
        let (pf, rlf, evs) ← tbTrainLoop fw N L e vbs (i + 1) p' (rl + loss) bs
        .ok (pf, rlf, .trainBatch e i :: evs)

/-- The TensorBoard notebook's whole training cell:
`for epoch in range(1): running_loss = 0.0; for i, data in ...`. -/
def tbRun {P B ε : Type} (fw : Framework P B ε) (N : ℕ)
    (tbs vbs : List B) (p : P) : Except ε (P × Loss × List Event) :=
  tbTrainLoop fw N tbs.length 0 vbs 0 p 0 tbs

/-- Per-batch loss values and final parameters of a training pass: the
same fold as `trainLoopAux` with the reporting bookkeeping stripped, so
that the reporting can be analysed as a pure function of the loss
sequence. -/
def lossParams {P B ε : Type} (fw : Framework P B ε) :
    P → List B → Except ε (List Loss × P)
  | p, [] => .ok ([], p)
  | p, b :: bs => do
      let l ← fw.fwdLoss p true b
      let p' ← fw.updParams p b
      let (ls, pf) ← lossParams fw p' bs
      .ok (l :: ls, pf)

/-- The reporting bookkeeping of `trainLoopAux` as a pure fold over the
per-batch loss values: threads the accumulator `rl` and `last_loss`
`ll` and produces the emitted events. -/
def reportFold (N L e : ℕ) : ℕ → Loss → Loss → List Loss → Loss × Loss × List Event
  | _, rl, ll, [] => (rl, ll, [])
  | i, rl, ll, l :: ls =>
      if i % N = N - 1 then
        let last := (rl + l) / (N : ℚ)
        let r := reportFold N L e (i + 1) 0 last ls
        (r.1, r.2.1,
          .trainBatch e i :: .trainReport e last (e * L + i + 1) :: r.2.2)
      else
        let r := reportFold N L e (i + 1) (rl + l) ll ls
        (r.1, r.2.1, .trainBatch e i :: r.2.2)

/-- Is an event a training-progress report (`add_scalar('Loss/train', ...)`)? -/
def isReport : Event → Bool
  | .trainReport _ _ _ => true
  | _ => false

/-- Is an event a training-phase event (batch or progress report) of
epoch `e`? -/
def isTrainEvt (e : ℕ) : Event → Prop
  | .trainBatch e' _ => e' = e
  | .trainReport e' _ _ => e' = e
  | _ => False

/-- Is an event the evaluation of a validation batch of epoch `e`? -/
def isValEvt (e : ℕ) : Event → Prop
  | .valBatch e' _ => e' = e
  | _ => False

/-- Shape of the event trace of `E` epochs of the driver starting at
epoch counter `e0`: one block per epoch, each consisting of that epoch's
training-phase events, then its validation-batch events, then its
combined report, then at most one save of that epoch's snapshot. -/
def EpochBlocks : ℕ → ℕ → List Event → Prop
  | _, 0, evs => evs = []
  | e0, E + 1, evs =>
      ∃ tevs vevs avgl avgv tail rest,
        evs = (tevs ++ vevs ++ Event.epochReport (e0 + 1) avgl avgv :: tail) ++ rest ∧
        (∀ x ∈ tevs, isTrainEvt e0 x) ∧ (∀ x ∈ vevs, isValEvt e0 x) ∧
        (tail = [] ∨ tail = [Event.save e0]) ∧
        EpochBlocks (e0 + 1) E rest

/-- The step tag of a training-progress report, `none` for any other
event. -/
def reportStep : Event → Option ℕ
  | .trainReport _ _ st => some st
  | _ => none

/-- The step tags of the training-progress reports of a trace, in
emission order. -/
def stepsOf (evs : List Event) : List ℕ := evs.filterMap reportStep

/-- A concrete framework instance for witnesses: the batch datum itself
is the loss, and the parameters (one rational weight) are left unchanged
by the update. -/
def demoFw : Framework ℚ ℚ String where
  fwdLoss := fun _ _ b => .ok b
  updParams := fun p _ => .ok p

/-- A concrete framework instance whose scoring function fails on the
batch `13` and whose update procedure fails on the batch `7`. -/
def failFw : Framework ℚ ℚ String where
  fwdLoss := fun _ _ b => if b = 13 then .error "score-boom" else .ok b
  updParams := fun p b => if b = 7 then .error "update-boom" else .ok p

/-- Is an event the combined end-of-epoch training/validation report? -/
def isEpochReport : Event → Bool
  | .epochReport _ _ _ => true
  | _ => false

/-- Bind on `Except` applied to a success, as a rewrite rule. -/
theorem except_bind_ok {ε α β : Type} (a : α) (f : α → Except ε β) :
    (Except.ok a >>= f) = f a := rfl

/-- Bind on `Except` applied to an error, as a rewrite rule. -/
theorem except_bind_error {ε α β : Type} (e : ε) (f : α → Except ε β) :
    ((Except.error e : Except ε α) >>= f) = Except.error e := rfl

/-- A successful run of the training loop factors through `lossParams`
and the pure `reportFold`: the parameters are those of `lossParams`, and
accumulator, `last_loss` and events are computed by `reportFold` from
the per-batch losses. -/
theorem trainLoopAux_factor {P B ε : Type} (fw : Framework P B ε) (N L e : ℕ)
    (bs : List B) (i : ℕ) (p pf : P) (rl ll rlf llf : Loss) (evs : List Event)
    (h : trainLoopAux fw N L e i p rl ll bs = .ok (pf, rlf, llf, evs)) :
    ∃ ls, lossParams fw p bs = .ok (ls, pf) ∧
      (rlf, llf, evs) = reportFold N L e i rl ll ls := by
  induction bs generalizing i p rl ll rlf llf evs with
  | nil =>
      simp only [trainLoopAux, Except.ok.injEq, Prod.mk.injEq] at h
      obtain ⟨hp, hrl, hll, hevs⟩ := h
      exact ⟨[], by simp [lossParams, hp], by simp [reportFold, hrl, hll, hevs]⟩
  | cons b bs ih =>
      simp only [trainLoopAux] at h
      cases hf : fw.fwdLoss p true b with
      | error err => simp [hf, except_bind_error] at h
      | ok l =>
        cases hu : fw.updParams p b with
        | error err => simp [hf, hu, except_bind_ok, except_bind_error] at h
        | ok p' =>
          simp only [hf, hu, except_bind_ok] at h
          by_cases hi : i % N = N - 1
          · simp only [hi, if_true] at h
            cases hr : trainLoopAux fw N L e (i + 1) p' 0 ((rl + l) / (N : ℚ)) bs with
            | error err => simp [hr, except_bind_error] at h
            | ok r =>
              obtain ⟨pf', rlf', llf', evs'⟩ := r
              simp only [hr, except_bind_ok, Except.ok.injEq, Prod.mk.injEq] at h
              obtain ⟨hp, hrl, hll, hevs⟩ := h
              obtain ⟨ls, hls, hrf⟩ := ih _ _ _ _ _ _ _ (hp ▸ hr)
              refine ⟨l :: ls, by simp [lossParams, hf, hu, except_bind_ok, hls], ?_⟩
              simp only [reportFold, hi, if_true, ← hrf, hrl, hll, hevs]
          · simp only [hi, if_false] at h
            cases hr : trainLoopAux fw N L e (i + 1) p' (rl + l) ll bs with
            | error err => simp [hr, except_bind_error] at h
            | ok r =>
              obtain ⟨pf', rlf', llf', evs'⟩ := r
              simp only [hr, except_bind_ok, Except.ok.injEq, Prod.mk.injEq] at h
              obtain ⟨hp, hrl, hll, hevs⟩ := h
              obtain ⟨ls, hls, hrf⟩ := ih _ _ _ _ _ _ _ (hp ▸ hr)
              refine ⟨l :: ls, by simp [lossParams, hf, hu, except_bind_ok, hls], ?_⟩
              simp only [reportFold, hi, if_false, ← hrf, hrl, hll, hevs]

/-- A successful `lossParams` yields one loss per batch. -/
theorem lossParams_length {P B ε : Type} (fw : Framework P B ε)
    (bs : List B) (p pf : P) (ls : List Loss)
    (h : lossParams fw p bs = .ok (ls, pf)) : ls.length = bs.length := by
  induction bs generalizing p pf ls with
  | nil => simp only [lossParams, Except.ok.injEq, Prod.mk.injEq] at h; simp [← h.1]
  | cons b bs ih =>
      simp only [lossParams] at h
      cases hf : fw.fwdLoss p true b with
      | error err => simp [hf, except_bind_error] at h
      | ok l =>
        cases hu : fw.updParams p b with
        | error err => simp [hf, hu, except_bind_ok, except_bind_error] at h
        | ok p' =>
          simp only [hf, hu, except_bind_ok] at h
          cases hr : lossParams fw p' bs with
          | error err => simp [hr, except_bind_error] at h
          | ok r =>
            obtain ⟨ls', pf'⟩ := r
            simp only [hr, except_bind_ok, Except.ok.injEq, Prod.mk.injEq] at h
            obtain ⟨h1, _⟩ := h
            simp [← h1, ih _ _ _ hr]

/-- Stepping the batch index inside the current reporting window. -/
theorem mod_succ_of_lt {i N : ℕ} (h : i % N + 1 < N) : (i + 1) % N = i % N + 1 := by
  conv_lhs => rw [← Nat.div_add_mod i N]
  rw [Nat.add_assoc, Nat.mul_add_mod, Nat.mod_eq_of_lt h]

/-- Unfolding a map over an index range of training-batch events. -/
theorem range_map_trainBatch (e i n : ℕ) :
    (List.range (n + 1)).map (fun k => Event.trainBatch e (i + k)) =
      Event.trainBatch e i :: (List.range n).map fun k => Event.trainBatch e (i + 1 + k) := by
  rw [List.range_succ_eq_map, List.map_cons, List.map_map]
  simp only [Nat.add_zero]
  congr 1
  refine List.map_congr_left fun k _ => ?_
  simp only [Function.comp_apply]
  congr 1
  omega

/-- Unfolding `reportFold` on a batch that does not end a reporting
window. -/
theorem reportFold_cons_miss (N L e i : ℕ) (rl ll l : Loss) (ls : List Loss)
    (hi : ¬ i % N = N - 1) :
    reportFold N L e i rl ll (l :: ls) =
      ((reportFold N L e (i + 1) (rl + l) ll ls).1,
       (reportFold N L e (i + 1) (rl + l) ll ls).2.1,
       Event.trainBatch e i :: (reportFold N L e (i + 1) (rl + l) ll ls).2.2) := by
  simp [reportFold, hi]

/-- Unfolding `reportFold` on a batch that ends a reporting window. -/
theorem reportFold_cons_hit (N L e i : ℕ) (rl ll l : Loss) (ls : List Loss)
    (hi : i % N = N - 1) :
    reportFold N L e i rl ll (l :: ls) =
      ((reportFold N L e (i + 1) 0 ((rl + l) / (N : ℚ)) ls).1,
       (reportFold N L e (i + 1) 0 ((rl + l) / (N : ℚ)) ls).2.1,
       Event.trainBatch e i ::
         Event.trainReport e ((rl + l) / (N : ℚ)) (e * L + i + 1) ::
           (reportFold N L e (i + 1) 0 ((rl + l) / (N : ℚ)) ls).2.2) := by
  simp [reportFold, hi]

/-- Running `reportFold` over too few losses to finish the current
reporting window: the losses are only accumulated, `last_loss` is kept,
and no report is emitted. -/
theorem reportFold_below_window (N L e : ℕ) :
    ∀ (cs : List Loss) (i : ℕ) (rl ll : Loss), i % N + cs.length < N →
    reportFold N L e i rl ll cs =
      (rl + cs.sum, ll, (List.range cs.length).map fun k => Event.trainBatch e (i + k)) := by
  intro cs
  induction cs with
  | nil => intro i rl ll _; simp [reportFold]
  | cons c cs ih =>
      intro i rl ll h
      simp only [List.length_cons] at h
      have hi : ¬ i % N = N - 1 := by omega
      have hlt : (i + 1) % N + cs.length < N := by
        rw [mod_succ_of_lt (by omega)]; omega
      rw [reportFold_cons_miss N L e i rl ll c cs hi, ih (i + 1) (rl + c) ll hlt]
      rw [List.length_cons, range_map_trainBatch e i cs.length]
      simp only [List.sum_cons]
      congr 1
      ring

/-- Running `reportFold` over exactly the losses that finish the current
reporting window, followed by anything: the window's batches are
processed, one report with mean `(rl + window sum) / N` and step tag
`e * L + i + window length` is emitted, and the fold continues with the
accumulator reset to `0` and `last_loss` set to that mean. -/
theorem reportFold_block (N L e : ℕ) (hN : 0 < N) :
    ∀ (cs rest : List Loss) (i : ℕ) (rl ll : Loss), i % N + cs.length = N →
    reportFold N L e i rl ll (cs ++ rest) =
      ((reportFold N L e (i + cs.length) 0 ((rl + cs.sum) / (N : ℚ)) rest).1,
       (reportFold N L e (i + cs.length) 0 ((rl + cs.sum) / (N : ℚ)) rest).2.1,
       ((List.range cs.length).map fun k => Event.trainBatch e (i + k)) ++
         Event.trainReport e ((rl + cs.sum) / (N : ℚ)) (e * L + i + cs.length) ::
           (reportFold N L e (i + cs.length) 0 ((rl + cs.sum) / (N : ℚ)) rest).2.2) := by
  intro cs
  induction cs with
  | nil =>
      intro rest i rl ll h
      have hiN : i % N < N := Nat.mod_lt i hN
      simp only [List.length_nil, Nat.add_zero] at h
      exfalso; omega
  | cons c cs ih =>
      intro rest i rl ll h
      simp only [List.length_cons] at h
      have hiN : i % N < N := Nat.mod_lt i hN
      by_cases hcs : cs = []
      · subst hcs
        simp only [List.length_nil] at h
        have hi : i % N = N - 1 := by omega
        rw [List.cons_append, List.nil_append, reportFold_cons_hit N L e i rl ll c rest hi]
        simp [List.range_succ]
      · have hlen : 0 < cs.length := List.length_pos.mpr hcs
        have hi : ¬ i % N = N - 1 := by omega
        have hcond : (i + 1) % N + cs.length = N := by
          rw [mod_succ_of_lt (by omega)]; omega
        rw [List.cons_append, reportFold_cons_miss N L e i rl ll c (cs ++ rest) hi,
          ih rest (i + 1) (rl + c) ll hcond]
        have hsum : rl + c + cs.sum = rl + (c :: cs).sum := by
          simp only [List.sum_cons]; ring
        have hidx : i + 1 + cs.length = i + (c :: cs).length := by
          simp only [List.length_cons]; omega
        have htag : e * L + (i + 1) + cs.length = e * L + i + (c :: cs).length := by
          simp only [List.length_cons]; omega
        rw [hsum, hidx, htag]
        rw [List.length_cons, range_map_trainBatch e i cs.length]
        simp [List.cons_append]

/-- Training-batch events never pass the report filter. -/
theorem filter_isReport_trainBatch_map (e : ℕ) (f : ℕ → ℕ) (r : List ℕ) :
    ((r.map fun k => Event.trainBatch e (f k)).filter isReport) = [] := by
  induction r with
  | nil => rfl
  | cons a r ih => simp [isReport, ih]

/-- Closed form of the training-progress reports of a window-aligned
fold started with a zero accumulator: exactly one report per complete
window of `N` batches; the `k`-th report averages precisely the `N`
losses of window `k` (divisor `N`, never more) and carries step tag
`e * L + i + (k + 1) * N`. -/
theorem reportFold_filter (N L e : ℕ) (hN : 0 < N) :
    ∀ (n : ℕ) (ls : List Loss) (i : ℕ) (ll : Loss), ls.length = n → i % N = 0 →
    ((reportFold N L e i 0 ll ls).2.2).filter isReport =
      (List.range (ls.length / N)).map fun k =>
        Event.trainReport e (((ls.drop (k * N)).take N).sum / (N : ℚ))
          (e * L + i + (k + 1) * N) := by
  intro n
  induction n using Nat.strong_induction_on with
  | _ n ih =>
    intro ls i ll hlen hi
    by_cases hsmall : ls.length < N
    · rw [reportFold_below_window N L e ls i 0 ll (by omega), Nat.div_eq_of_lt hsmall]
      simp [filter_isReport_trainBatch_map]
    · push_neg at hsmall
      have htake : (ls.take N).length = N := by rw [List.length_take]; omega
      have hhead : i % N + (ls.take N).length = N := by rw [htake]; omega
      have hblock := reportFold_block N L e hN (ls.take N) (ls.drop N) i 0 ll hhead
      rw [List.take_append_drop] at hblock
      rw [hblock, htake, List.filter_append, filter_isReport_trainBatch_map,
        List.nil_append]
      have hdlen : (ls.drop N).length = n - N := by
        rw [List.length_drop, hlen]
      have hrec := ih (n - N) (by omega) (ls.drop N) (i + N)
        ((0 + (ls.take N).sum) / (N : ℚ)) hdlen
        (by rw [Nat.add_mod_right, hi])
      have hfc : ((Event.trainReport e ((0 + (ls.take N).sum) / (N : ℚ)) (e * L + i + N) ::
          (reportFold N L e (i + N) 0 ((0 + (ls.take N).sum) / (N : ℚ)) (ls.drop N)).2.2)).filter
            isReport =
          Event.trainReport e ((0 + (ls.take N).sum) / (N : ℚ)) (e * L + i + N) ::
            ((reportFold N L e (i + N) 0 ((0 + (ls.take N).sum) / (N : ℚ)) (ls.drop N)).2.2).filter
              isReport := rfl
      rw [hfc, hrec, hdlen]
      have hq : ls.length / N = (n - N) / N + 1 := by
        rw [hlen, Nat.div_eq_sub_div hN (by omega)]
      rw [hq, List.range_succ_eq_map, List.map_cons, List.map_map]
      congr 1
      · simp
      · refine List.map_congr_left fun k hk => ?_
        simp only [Function.comp_apply]
        rw [List.drop_drop]
        have e1 : N + k * N = (k + 1) * N := by ring
        have e2 : e * L + (i + N) + (k + 1) * N = e * L + i + (k + 1 + 1) * N := by ring
        rw [e1, e2]

/-- Reports of a successful `train_one_epoch`: with `ls` the per-batch
losses, there is exactly one report per complete window of `N` batches;
the `k`-th report averages the `N` losses of window `k` (divisor `N`)
and carries step tag `epoch_index * len(training_loader) + (k+1) * N`. -/
theorem train_one_epoch_reports {P B ε : Type} (fw : Framework P B ε) (N e : ℕ)
    (hN : 0 < N) (p pf : P) (rlf llf : Loss) (evs : List Event) (tbs : List B)
    (h : train_one_epoch fw N e p tbs = .ok (pf, rlf, llf, evs)) :
    ∃ ls, lossParams fw p tbs = .ok (ls, pf) ∧ ls.length = tbs.length ∧
      evs.filter isReport = (List.range (tbs.length / N)).map fun k =>
        Event.trainReport e (((ls.drop (k * N)).take N).sum / (N : ℚ))
          (e * tbs.length + (k + 1) * N) := by
  obtain ⟨ls, hls, hrf⟩ :=
    trainLoopAux_factor fw N tbs.length e tbs 0 p pf 0 0 rlf llf evs h
  have hlen := lossParams_length fw tbs p pf ls hls
  refine ⟨ls, hls, hlen, ?_⟩
  have hevs : evs = (reportFold N tbs.length e 0 0 0 ls).2.2 :=
    congrArg (fun t => t.2.2) hrf
  rw [hevs, reportFold_filter N tbs.length e hN ls.length ls 0 0 rfl (Nat.zero_mod N),
    hlen]
  refine List.map_congr_left fun k _ => ?_
  rw [Nat.add_zero]

/-- All events of the reporting fold are training-phase events of its
epoch. -/
theorem reportFold_events (N L e : ℕ) :
    ∀ (ls : List Loss) (i : ℕ) (rl ll : Loss),
    ∀ x ∈ (reportFold N L e i rl ll ls).2.2, isTrainEvt e x := by
  intro ls
  induction ls with
  | nil => intro i rl ll x hx; simp [reportFold] at hx
  | cons l ls ih =>
      intro i rl ll x hx
      by_cases hi : i % N = N - 1
      · rw [reportFold_cons_hit N L e i rl ll l ls hi] at hx
        simp only [List.mem_cons] at hx
        rcases hx with h | h | h
        · subst h; exact rfl
        · subst h; exact rfl
        · exact ih (i + 1) 0 ((rl + l) / (N : ℚ)) x h
      · rw [reportFold_cons_miss N L e i rl ll l ls hi] at hx
        simp only [List.mem_cons] at hx
        rcases hx with h | h
        · subst h; exact rfl
        · exact ih (i + 1) (rl + l) ll x h

/-- All events of a successful training pass are training-phase events
of its epoch. -/
theorem trainLoopAux_events {P B ε : Type} (fw : Framework P B ε) (N L e : ℕ)
    (bs : List B) (i : ℕ) (p pf : P) (rl ll rlf llf : Loss) (evs : List Event)
    (h : trainLoopAux fw N L e i p rl ll bs = .ok (pf, rlf, llf, evs)) :
    ∀ x ∈ evs, isTrainEvt e x := by
  obtain ⟨ls, _, hrf⟩ := trainLoopAux_factor fw N L e bs i p pf rl ll rlf llf evs h
  have hevs : evs = (reportFold N L e i rl ll ls).2.2 := congrArg (fun t => t.2.2) hrf
  rw [hevs]
  exact reportFold_events N L e ls i rl ll

/-- Unfolding a map over an index range, generic in the event builder. -/
theorem range_map_add_one {α : Type} (h : ℕ → α) (i n : ℕ) :
    (List.range (n + 1)).map (fun k => h (i + k)) =
      h i :: (List.range n).map fun k => h (i + 1 + k) := by
  rw [List.range_succ_eq_map, List.map_cons, List.map_map]
  simp only [Nat.add_zero]
  congr 1
  refine List.map_congr_left fun k _ => ?_
  simp only [Function.comp_apply]
  congr 1
  omega

/-- A successful validation loop leaves the parameters untouched, emits
exactly one `valBatch` event per validation batch, reports the loop
variable's last value, and accumulates the per-batch losses. -/
theorem valLoopAux_ok {P B ε : Type} (fw : Framework P B ε) (e : ℕ) :
    ∀ (vbs : List B) (i : ℕ) (p pf : P) (rv rvf : Loss) (li lif : Option ℕ)
      (evs : List Event),
    valLoopAux fw e i p rv li vbs = .ok (pf, rvf, lif, evs) →
    pf = p ∧ evs = (List.range vbs.length).map (fun k => Event.valBatch e (i + k)) ∧
      lif = (if vbs.isEmpty then li else some (i + vbs.length - 1)) := by
  intro vbs
  induction vbs with
  | nil =>
      intro i p pf rv rvf li lif evs h
      simp only [valLoopAux, Except.ok.injEq, Prod.mk.injEq] at h
      obtain ⟨h1, _, h3, h4⟩ := h
      simp [← h1, ← h3, ← h4]
  | cons b bs ih =>
      intro i p pf rv rvf li lif evs h
      simp only [valLoopAux] at h
      cases hf : fw.fwdLoss p false b with
      | error err => simp [hf, except_bind_error] at h
      | ok l =>
        simp only [hf, except_bind_ok] at h
        cases hr : valLoopAux fw e (i + 1) p (rv + l) (some i) bs with
        | error err => simp [hr, except_bind_error] at h
        | ok r =>
          obtain ⟨pf', rvf', lif', evs'⟩ := r
          simp only [hr, except_bind_ok, Except.ok.injEq, Prod.mk.injEq] at h
          obtain ⟨h1, h2, h3, h4⟩ := h
          obtain ⟨hp, hevs, hli⟩ := ih (i + 1) p pf' (rv + l) rvf' (some i) lif' evs' hr
          refine ⟨by rw [← h1, hp], ?_, ?_⟩
          · rw [← h4, hevs, List.length_cons, range_map_add_one (Event.valBatch e) i bs.length]
          · rw [← h3, hli]
            cases bs with
            | nil => simp
            | cons b' bs' => simp [List.isEmpty]; omega

/-- Mapping the error of a success, as a rewrite rule. -/
theorem except_mapError_ok {ε ε' α : Type} (a : α) (f : ε → ε') :
    (Except.ok a : Except ε α).mapError f = .ok a := rfl

/-- Mapping the error of a failure, as a rewrite rule. -/
theorem except_mapError_error {ε ε' α : Type} (e : ε) (f : ε → ε') :
    (Except.error e : Except ε α).mapError f = .error (f e) := rfl

/-- Structure of one successful epoch of the driver loop: the epoch
counter advances by one, and the events are the training-phase events,
then the validation-batch events, then the combined report tagged
`epoch_number + 1`, then — exactly when the epoch's mean validation loss
beats `best_vloss` — a save; in the beating case `best_vloss` becomes
that mean and the snapshot list grows by the saved copy, otherwise both
are unchanged. -/
theorem epochBody_ok_struct {P B ε : Type} (fw : Framework P B ε) (N : ℕ)
    (tbs vbs : List B) (s s' : RunState P) (evs : List Event)
    (h : epochBody fw N tbs vbs s = .ok (s', evs)) :
    s'.epoch_number = s.epoch_number + 1 ∧
    ∃ tevs vevs avgl avgv tail,
      evs = tevs ++ vevs ++ Event.epochReport (s.epoch_number + 1) avgl avgv :: tail ∧
      (∀ x ∈ tevs, isTrainEvt s.epoch_number x) ∧
      (∀ x ∈ vevs, isValEvt s.epoch_number x) ∧
      ((avgv < s.best_vloss ∧ tail = [Event.save s.epoch_number] ∧
          s'.best_vloss = avgv ∧ s'.saved = s.saved ++ [(s.epoch_number, s'.params)]) ∨
        (¬ avgv < s.best_vloss ∧ tail = [] ∧
          s'.best_vloss = s.best_vloss ∧ s'.saved = s.saved)) := by
  simp only [epochBody] at h
  cases ht : train_one_epoch fw N s.epoch_number s.params tbs with
  | error err => rw [ht] at h; simp [except_mapError_error, except_bind_error] at h
  | ok t =>
    obtain ⟨p1, rl1, avgl, tevs⟩ := t
    rw [ht] at h
    simp only [except_mapError_ok, except_bind_ok] at h
    cases hv : valPass fw s.epoch_number p1 vbs with
    | error err => rw [hv] at h; simp [except_mapError_error, except_bind_error] at h
    | ok v =>
      obtain ⟨p2, rv, li, vevs⟩ := v
      rw [hv] at h
      simp only [except_mapError_ok, except_bind_ok] at h
      cases li with
      | none => simp at h
      | some i =>
        have htr : ∀ x ∈ tevs, isTrainEvt s.epoch_number x :=
          trainLoopAux_events fw N tbs.length s.epoch_number tbs 0 s.params p1 0 0
            rl1 avgl tevs ht
        have hvr : ∀ x ∈ vevs, isValEvt s.epoch_number x := by
          obtain ⟨_, hevs, _⟩ :=
            valLoopAux_ok fw s.epoch_number vbs 0 p1 p2 0 rv none (some i) vevs hv
          intro x hx
          rw [hevs] at hx
          obtain ⟨k, _, rfl⟩ := List.mem_map.mp hx
          exact rfl
        by_cases hcmp : rv / ((i : ℚ) + 1) < s.best_vloss
        · simp only [if_pos hcmp, Except.ok.injEq, Prod.mk.injEq] at h
          obtain ⟨hs, hevs⟩ := h
          refine ⟨by rw [← hs], tevs, vevs, avgl, rv / ((i : ℚ) + 1),
            [Event.save s.epoch_number], ?_, htr, hvr, ?_⟩
          · simp [← hevs]
          · exact Or.inl ⟨hcmp, rfl, by rw [← hs], by rw [← hs]⟩
        · simp only [if_neg hcmp, Except.ok.injEq, Prod.mk.injEq] at h
          obtain ⟨hs, hevs⟩ := h
          refine ⟨by rw [← hs], tevs, vevs, avgl, rv / ((i : ℚ) + 1), [],
            ?_, htr, hvr, ?_⟩
          · simp [← hevs]
          · exact Or.inr ⟨hcmp, rfl, by rw [← hs], by rw [← hs]⟩

/-- A successful run of `E` epochs advances the epoch counter by exactly
`E` and produces a trace of `E` well-formed epoch blocks. -/
theorem runEpochs_ok_struct {P B ε : Type} (fw : Framework P B ε) (N : ℕ)
    (tbs vbs : List B) :
    ∀ (E : ℕ) (s s' : RunState P) (evs : List Event),
    runEpochs fw N tbs vbs E s = .ok (s', evs) →
    s'.epoch_number = s.epoch_number + E ∧ EpochBlocks s.epoch_number E evs := by
  intro E
  induction E with
  | zero =>
      intro s s' evs h
      simp only [runEpochs, Except.ok.injEq, Prod.mk.injEq] at h
      exact ⟨by rw [← h.1]; omega, by rw [← h.2]; rfl⟩
  | succ E ih =>
      intro s s' evs h
      simp only [runEpochs] at h
      cases h1 : epochBody fw N tbs vbs s with
      | error err => rw [h1] at h; simp [except_bind_error] at h
      | ok r1 =>
        obtain ⟨s1, evs1⟩ := r1
        rw [h1] at h
        simp only [except_bind_ok] at h
        cases h2 : runEpochs fw N tbs vbs E s1 with
        | error err => rw [h2] at h; simp [except_bind_error] at h
        | ok r2 =>
          obtain ⟨s2, evs2⟩ := r2
          rw [h2] at h
          simp only [except_bind_ok, Except.ok.injEq, Prod.mk.injEq] at h
          obtain ⟨hs, hevs⟩ := h
          obtain ⟨he1, tevs, vevs, avgl, avgv, tail, hblk, htr, hvr, hor⟩ :=
            epochBody_ok_struct fw N tbs vbs s s1 evs1 h1
          obtain ⟨he2, hrest⟩ := ih s1 s2 evs2 h2
          constructor
          · rw [← hs, he2, he1]; omega
          · refine ⟨tevs, vevs, avgl, avgv, tail, evs2, ?_, htr, hvr, ?_, ?_⟩
            · rw [← hevs, hblk]
            · rcases hor with ⟨_, ht, _⟩ | ⟨_, ht, _⟩
              · exact Or.inr ht
              · exact Or.inl ht
            · rw [← he1]; exact hrest

/-- Step tags can be read off the report-filtered trace. -/
theorem stepsOf_eq_filter (evs : List Event) :
    stepsOf evs = (evs.filter isReport).filterMap reportStep := by
  induction evs with
  | nil => rfl
  | cons x evs ih =>
      simp only [stepsOf] at ih ⊢
      cases x <;>
        simp [List.filterMap_cons, List.filter_cons, reportStep, isReport, ih]

/-- Validation-batch events carry no report step tag. -/
theorem reportStep_none_of_val (e : ℕ) (x : Event) (h : isValEvt e x) :
    reportStep x = none := by
  cases x <;> first | rfl | exact h.elim

/-- A trace of validation-batch events contains no report steps. -/
theorem stepsOf_val_nil (e : ℕ) (l : List Event) (h : ∀ x ∈ l, isValEvt e x) :
    stepsOf l = [] := by
  induction l with
  | nil => rfl
  | cons x l ih =>
      simp only [stepsOf, List.filterMap_cons,
        reportStep_none_of_val e x (h x (List.mem_cons_self x l))]
      exact ih fun y hy => h y (List.mem_cons_of_mem x hy)

/-- Step tags of a list of report events. -/
theorem filterMap_reportStep_reports (e : ℕ) (f : ℕ → Loss) (g : ℕ → ℕ) (r : List ℕ) :
    ((r.map fun k => Event.trainReport e (f k) (g k)).filterMap reportStep) = r.map g := by
  induction r with
  | nil => rfl
  | cons a r ih => simp [reportStep, ih]

/-- Step tags of one successful epoch of the driver: the tags
`epoch_number * len(training_loader) + (k + 1) * N` of the epoch's
training-progress reports, in order; validation events, the combined
report and the save carry none. -/
theorem epochBody_steps {P B ε : Type} (fw : Framework P B ε) (N : ℕ) (hN : 0 < N)
    (tbs vbs : List B) (s s' : RunState P) (evs : List Event)
    (h : epochBody fw N tbs vbs s = .ok (s', evs)) :
    stepsOf evs = (List.range (tbs.length / N)).map fun k =>
      s.epoch_number * tbs.length + (k + 1) * N := by
  simp only [epochBody] at h
  cases ht : train_one_epoch fw N s.epoch_number s.params tbs with
  | error err => rw [ht] at h; simp [except_mapError_error, except_bind_error] at h
  | ok t =>
    obtain ⟨p1, rl1, avgl, tevs⟩ := t
    rw [ht] at h
    simp only [except_mapError_ok, except_bind_ok] at h
    cases hv : valPass fw s.epoch_number p1 vbs with
    | error err => rw [hv] at h; simp [except_mapError_error, except_bind_error] at h
    | ok v =>
      obtain ⟨p2, rv, li, vevs⟩ := v
      rw [hv] at h
      simp only [except_mapError_ok, except_bind_ok] at h
      cases li with
      | none => simp at h
      | some i =>
        obtain ⟨ls, hls, hlen, hfil⟩ :=
          train_one_epoch_reports fw N s.epoch_number hN s.params p1 rl1 avgl tevs tbs ht
        have hvval : ∀ x ∈ vevs, isValEvt s.epoch_number x := by
          obtain ⟨_, hevs, _⟩ :=
            valLoopAux_ok fw s.epoch_number vbs 0 p1 p2 0 rv none (some i) vevs hv
          intro x hx; rw [hevs] at hx
          obtain ⟨k, _, rfl⟩ := List.mem_map.mp hx
          exact rfl
        have hsteps_t : stepsOf tevs = (List.range (tbs.length / N)).map fun k =>
            s.epoch_number * tbs.length + (k + 1) * N := by
          rw [stepsOf_eq_filter, hfil]
          exact filterMap_reportStep_reports _ _ _ _
        have hvnil := stepsOf_val_nil s.epoch_number vevs hvval
        by_cases hcmp : rv / ((i : ℚ) + 1) < s.best_vloss
        · simp only [if_pos hcmp, Except.ok.injEq, Prod.mk.injEq] at h
          rw [← h.2]
          simp only [stepsOf, List.filterMap_append, List.filterMap_cons, reportStep]
          simp only [stepsOf] at hsteps_t hvnil
          simp [hsteps_t, hvnil]
        · simp only [if_neg hcmp, Except.ok.injEq, Prod.mk.injEq] at h
          rw [← h.2]
          simp only [stepsOf, List.filterMap_append, List.filterMap_cons, reportStep]
          simp only [stepsOf] at hsteps_t hvnil
          simp [hsteps_t, hvnil]

/-- Across a successful run of `E` epochs, the step tags of all
training-progress reports are strictly increasing in emission order, and
every tag lies in the window
`(epoch_number_before * L, (epoch_number_before + E) * L]` for
`L = len(training_loader)`. -/
theorem runEpochs_steps {P B ε : Type} (fw : Framework P B ε) (N : ℕ) (hN : 0 < N)
    (tbs vbs : List B) :
    ∀ (E : ℕ) (s s' : RunState P) (evs : List Event),
    runEpochs fw N tbs vbs E s = .ok (s', evs) →
    (stepsOf evs).Pairwise (· < ·) ∧
    ∀ st ∈ stepsOf evs, s.epoch_number * tbs.length < st ∧
      st ≤ (s.epoch_number + E) * tbs.length := by
  intro E
  induction E with
  | zero =>
      intro s s' evs h
      simp only [runEpochs, Except.ok.injEq, Prod.mk.injEq] at h
      rw [← h.2]
      exact ⟨List.Pairwise.nil, by simp [stepsOf]⟩
  | succ E ih =>
      intro s s' evs h
      simp only [runEpochs] at h
      cases h1 : epochBody fw N tbs vbs s with
      | error err => rw [h1] at h; simp [except_bind_error] at h
      | ok r1 =>
        obtain ⟨s1, evs1⟩ := r1
        rw [h1] at h
        simp only [except_bind_ok] at h
        cases h2 : runEpochs fw N tbs vbs E s1 with
        | error err => rw [h2] at h; simp [except_bind_error] at h
        | ok r2 =>
          obtain ⟨s2, evs2⟩ := r2
          rw [h2] at h
          simp only [except_bind_ok, Except.ok.injEq, Prod.mk.injEq] at h
          obtain ⟨_, hevs⟩ := h
          have hsteps1 := epochBody_steps fw N hN tbs vbs s s1 evs1 h1
          have he1 : s1.epoch_number = s.epoch_number + 1 :=
            (epochBody_ok_struct fw N tbs vbs s s1 evs1 h1).1
          obtain ⟨hpw2, hbd2⟩ := ih s1 s2 evs2 h2
          have happ : stepsOf evs = stepsOf evs1 ++ stepsOf evs2 := by
            rw [← hevs]; exact List.filterMap_append evs1 evs2 reportStep
          have hbd1 : ∀ st ∈ stepsOf evs1,
              s.epoch_number * tbs.length < st ∧
                st ≤ (s.epoch_number + 1) * tbs.length := by
            intro st hst
            rw [hsteps1] at hst
            obtain ⟨k, hk, rfl⟩ := List.mem_map.mp hst
            have hkr := List.mem_range.mp hk
            constructor
            · have : 0 < (k + 1) * N := Nat.mul_pos (Nat.succ_pos k) hN
              omega
            · have h1' : (k + 1) * N ≤ (tbs.length / N) * N :=
                Nat.mul_le_mul_right N (by omega)
              have h2' : (tbs.length / N) * N ≤ tbs.length := Nat.div_mul_le_self _ _
              have : (s.epoch_number + 1) * tbs.length =
                  s.epoch_number * tbs.length + tbs.length := by ring
              omega
          have hpw1 : (stepsOf evs1).Pairwise (· < ·) := by
            rw [hsteps1]
            refine (List.pairwise_lt_range _).map _ fun a b hab => ?_
            have : (a + 1) * N < (b + 1) * N :=
              Nat.mul_lt_mul_of_lt_of_le (by omega) (le_refl N) hN
            omega
          constructor
          · rw [happ]
            refine List.pairwise_append.mpr ⟨hpw1, hpw2, fun a ha b hb => ?_⟩
            have ha' := (hbd1 a ha).2
            have hb' := (hbd2 b hb).1
            rw [he1] at hb'
            omega
          · intro st hst
            rw [happ] at hst
            rcases List.mem_append.mp hst with hmem | hmem
            · obtain ⟨hlo, hhi⟩ := hbd1 st hmem
              refine ⟨hlo, ?_⟩
              have : (s.epoch_number + 1) * tbs.length ≤
                  (s.epoch_number + (E + 1)) * tbs.length :=
                Nat.mul_le_mul_right _ (by omega)
              omega
            · obtain ⟨hlo, hhi⟩ := hbd2 st hmem
              rw [he1] at hlo hhi
              have hmono : s.epoch_number * tbs.length ≤
                  (s.epoch_number + 1) * tbs.length :=
                Nat.mul_le_mul_right _ (by omega)
              have : (s.epoch_number + 1 + E) * tbs.length =
                  (s.epoch_number + (E + 1)) * tbs.length := by ring
              omega

/-- Mapping a function over a success, as a rewrite rule. -/
theorem except_map_ok {ε α β : Type} (a : α) (f : α → β) :
    Except.map f (Except.ok a : Except ε α) = .ok (f a) := rfl

/-- Mapping a function over a failure, as a rewrite rule. -/
theorem except_map_error {ε α β : Type} (e : ε) (f : α → β) :
    Except.map f (Except.error e : Except ε α) = .error e := rfl

/-- Training-phase events are never saves. -/
theorem not_save_of_train (e e' : ℕ) (x : Event) (h : isTrainEvt e x) :
    x ≠ Event.save e' := by
  cases x <;> first | exact fun hc => Event.noConfusion hc | exact h.elim

/-- Validation-batch events are never saves. -/
theorem not_save_of_val (e e' : ℕ) (x : Event) (h : isValEvt e x) :
    x ≠ Event.save e' := by
  cases x <;> first | exact fun hc => Event.noConfusion hc | exact h.elim

/-- A failing forward/loss computation aborts the training loop at once:
the loop returns exactly that error, whatever batches remain. -/
theorem trainLoopAux_fwd_error {P B ε : Type} (fw : Framework P B ε) (N L e i : ℕ)
    (p : P) (rl ll : Loss) (b : B) (bs : List B) (err : ε)
    (hf : fw.fwdLoss p true b = .error err) :
    trainLoopAux fw N L e i p rl ll (b :: bs) = .error err := by
  simp only [trainLoopAux, hf, except_bind_error]

/-- A failing parameter update aborts the training loop at once. -/
theorem trainLoopAux_upd_error {P B ε : Type} (fw : Framework P B ε) (N L e i : ℕ)
    (p : P) (rl ll : Loss) (b : B) (bs : List B) (l : Loss) (err : ε)
    (hf : fw.fwdLoss p true b = .ok l) (hu : fw.updParams p b = .error err) :
    trainLoopAux fw N L e i p rl ll (b :: bs) = .error err := by
  simp only [trainLoopAux, hf, hu, except_bind_ok, except_bind_error]

/-- A failing forward/loss computation aborts the validation loop at
once. -/
theorem valLoopAux_fwd_error {P B ε : Type} (fw : Framework P B ε) (e i : ℕ)
    (p : P) (rv : Loss) (li : Option ℕ) (b : B) (bs : List B) (err : ε)
    (hf : fw.fwdLoss p false b = .error err) :
    valLoopAux fw e i p rv li (b :: bs) = .error err := by
  simp only [valLoopAux, hf, except_bind_error]

/-- A failing training pass aborts the epoch, wrapping the collaborator
error unmodified. -/
theorem epochBody_train_error {P B ε : Type} (fw : Framework P B ε) (N : ℕ)
    (tbs vbs : List B) (s : RunState P) (err : ε)
    (ht : train_one_epoch fw N s.epoch_number s.params tbs = .error err) :
    epochBody fw N tbs vbs s = .error (.ext err) := by
  simp only [epochBody, ht, except_mapError_error, except_bind_error]

/-- A failing epoch aborts the whole multi-epoch run at once: the run
returns exactly that error, whatever epochs remain. -/
theorem runEpochs_epoch_error {P B ε : Type} (fw : Framework P B ε) (N : ℕ)
    (tbs vbs : List B) (E : ℕ) (s : RunState P) (er : RunError ε)
    (h1 : epochBody fw N tbs vbs s = .error er) :
    runEpochs fw N tbs vbs (E + 1) s = .error er := by
  simp only [runEpochs, h1, except_bind_error]

/-- With an empty validation sequence, the epoch aborts with the
unbound-loop-variable error as soon as the mean validation loss is
formed (provided the training pass itself succeeded). -/
theorem epochBody_empty_validation {P B ε : Type} (fw : Framework P B ε) (N : ℕ)
    (tbs : List B) (s : RunState P) (r : P × Loss × Loss × List Event)
    (ht : train_one_epoch fw N s.epoch_number s.params tbs = .ok r) :
    epochBody fw N tbs [] s = .error .unboundLoopVar := by
  obtain ⟨p1, rl1, avgl, tevs⟩ := r
  simp only [epochBody, ht, except_mapError_ok, except_bind_ok]
  have hv : valPass fw s.epoch_number p1 [] = .ok (p1, 0, none, []) := rfl
  simp only [hv, except_mapError_ok, except_bind_ok]

/-- On the batch ending a reporting window, the training loop emits the
report and continues with the accumulator reset to `0` and `last_loss`
set to the reported mean. -/
theorem trainLoopAux_report_reset {P B ε : Type} (fw : Framework P B ε)
    (N L e i : ℕ) (p p' : P) (rl ll l : Loss) (b : B) (bs : List B)
    (hi : i % N = N - 1) (hf : fw.fwdLoss p true b = .ok l)
    (hu : fw.updParams p b = .ok p') :
    trainLoopAux fw N L e i p rl ll (b :: bs) =
      Except.map (fun r => (r.1, r.2.1, r.2.2.1,
          Event.trainBatch e i ::
            Event.trainReport e ((rl + l) / (N : ℚ)) (e * L + i + 1) :: r.2.2.2))
        (trainLoopAux fw N L e (i + 1) p' 0 ((rl + l) / (N : ℚ)) bs) := by
  simp only [trainLoopAux, hf, hu, except_bind_ok, if_pos hi]
  cases hr : trainLoopAux fw N L e (i + 1) p' 0 ((rl + l) / (N : ℚ)) bs with
  | error err => simp [except_bind_error, except_map_error]
  | ok r => obtain ⟨a, b', c, d⟩ := r; simp [except_bind_ok, except_map_ok]

/-- Concrete training pass: batches with losses 1, 2, 100 and `N = 2`:
the only report averages the first two batches (divisor 2); the third
batch's loss stays in the accumulator and is returned unreported. -/
theorem demo_train_eq : train_one_epoch demoFw 2 0 (0 : ℚ) [1, 2, 100] =
    .ok (0, 100, 3 / 2, [.trainBatch 0 0, .trainBatch 0 1,
      .trainReport 0 (3 / 2) 2, .trainBatch 0 2]) := by
  norm_num [train_one_epoch, trainLoopAux, demoFw, except_bind_ok]

/-- Concrete validation pass with the single loss 4. -/
theorem demo_val_eq : valPass demoFw 0 (0 : ℚ) [4] =
    .ok (0, 4, some 0, [.valBatch 0 0]) := by
  norm_num [valPass, valLoopAux, demoFw, except_bind_ok]

/-- Concrete epoch from the fresh driver state. -/
theorem demo_epochBody_eq : epochBody demoFw 2 [1, 2, 100] [4]
      { params := (0 : ℚ), epoch_number := 0, best_vloss := 1000000, saved := [] } =
    .ok ({ params := 0, epoch_number := 1, best_vloss := 4, saved := [(0, 0)] },
      [.trainBatch 0 0, .trainBatch 0 1, .trainReport 0 (3 / 2) 2, .trainBatch 0 2,
       .valBatch 0 0, .epochReport 1 (3 / 2) 4, .save 0]) := by
  simp only [epochBody, demo_train_eq, demo_val_eq, except_mapError_ok, except_bind_ok]
  norm_num

/-- Concrete one-epoch driver run from the fresh state. -/
theorem demo_run_eq : trainingRun demoFw 2 [1, 2, 100] [4] 1 0 0 =
    .ok ({ params := 0, epoch_number := 1, best_vloss := 4, saved := [(0, 0)] },
      [.trainBatch 0 0, .trainBatch 0 1, .trainReport 0 (3 / 2) 2, .trainBatch 0 2,
       .valBatch 0 0, .epochReport 1 (3 / 2) 4, .save 0]) := by
  show runEpochs demoFw 2 [1, 2, 100] [4] 1
      { params := (0 : ℚ), epoch_number := 0, best_vloss := 1000000, saved := [] } = _
  simp only [runEpochs, demo_epochBody_eq, except_bind_ok, List.append_nil]

/-- Concrete one-epoch run with 4 training batches and `N = 2`: exactly
two training-progress reports (steps 2 and 4), both emitted before the
single end-of-epoch combined report. -/
theorem demo_run4_eq : trainingRun demoFw 2 [1, 3, 5, 7] [4] 1 0 0 =
    .ok ({ params := 0, epoch_number := 1, best_vloss := 4, saved := [(0, 0)] },
      [.trainBatch 0 0, .trainBatch 0 1, .trainReport 0 2 2,
       .trainBatch 0 2, .trainBatch 0 3, .trainReport 0 6 4,
       .valBatch 0 0, .epochReport 1 6 4, .save 0]) := by
  have ht : train_one_epoch demoFw 2 0 (0 : ℚ) [1, 3, 5, 7] =
      .ok (0, 0, 6, [.trainBatch 0 0, .trainBatch 0 1, .trainReport 0 2 2,
        .trainBatch 0 2, .trainBatch 0 3, .trainReport 0 6 4]) := by
    norm_num [train_one_epoch, trainLoopAux, demoFw, except_bind_ok]
  show runEpochs demoFw 2 [1, 3, 5, 7] [4] 1
      { params := (0 : ℚ), epoch_number := 0, best_vloss := 1000000, saved := [] } = _
  have hb : epochBody demoFw 2 [1, 3, 5, 7] [4]
      { params := (0 : ℚ), epoch_number := 0, best_vloss := 1000000, saved := [] } =
      .ok ({ params := 0, epoch_number := 1, best_vloss := 4, saved := [(0, 0)] },
        [.trainBatch 0 0, .trainBatch 0 1, .trainReport 0 2 2,
         .trainBatch 0 2, .trainBatch 0 3, .trainReport 0 6 4,
         .valBatch 0 0, .epochReport 1 6 4, .save 0]) := by
    simp only [epochBody, ht, demo_val_eq, except_mapError_ok, except_bind_ok]
    norm_num
  simp only [runEpochs, hb, except_bind_ok, List.append_nil]

/-- Concrete one-epoch run whose mean validation loss is 2000000: it is
not below the 1000000 sentinel, so the tracker keeps the sentinel and no
snapshot is persisted. -/
theorem demo_runBig_eq : trainingRun demoFw 1 [3] [2000000] 1 0 0 =
    .ok ({ params := 0, epoch_number := 1, best_vloss := 1000000, saved := [] },
      [.trainBatch 0 0, .trainReport 0 3 1, .valBatch 0 0,
       .epochReport 1 3 2000000]) := by
  have ht : train_one_epoch demoFw 1 0 (0 : ℚ) [3] =
      .ok (0, 0, 3, [.trainBatch 0 0, .trainReport 0 3 1]) := by
    norm_num [train_one_epoch, trainLoopAux, demoFw, except_bind_ok]
  have hv : valPass demoFw 0 (0 : ℚ) [2000000] =
      .ok (0, 2000000, some 0, [.valBatch 0 0]) := by
    norm_num [valPass, valLoopAux, demoFw, except_bind_ok]
  show runEpochs demoFw 1 [3] [2000000] 1
      { params := (0 : ℚ), epoch_number := 0, best_vloss := 1000000, saved := [] } = _
  have hb : epochBody demoFw 1 [3] [2000000]
      { params := (0 : ℚ), epoch_number := 0, best_vloss := 1000000, saved := [] } =
      .ok ({ params := 0, epoch_number := 1, best_vloss := 1000000, saved := [] },
        [.trainBatch 0 0, .trainReport 0 3 1, .valBatch 0 0,
         .epochReport 1 3 2000000]) := by
    simp only [epochBody, ht, hv, except_mapError_ok, except_bind_ok]
    norm_num
  simp only [runEpochs, hb, except_bind_ok, List.append_nil]

/-- Concrete run of the TensorBoard notebook's loop with `N = 1`, two
training batches and one validation batch: a full validation pass runs
after the first training batch and before the second, i.e. in the middle
of the epoch. -/
theorem demo_tbRun_eq : tbRun demoFw 1 [10, 20] [5] 0 =
    .ok (0, 0, [.trainBatch 0 0, .valBatch 0 0, .epochReport 0 10 5,
                .trainBatch 0 1, .valBatch 0 0, .epochReport 1 20 5]) := by
  norm_num [tbRun, tbTrainLoop, tbValLoop, demoFw, except_bind_ok]

/-- C4: a validation pass never mutates the model state: a successful
pass returns the parameters it was given, and running the same pass
again from the state it leaves behind returns the identical result — in
particular the identical accumulated validation loss and loop index,
hence the identical mean validation loss both times. -/
theorem C4_validation_readonly {P B ε : Type} (fw : Framework P B ε) (e : ℕ)
    (p pf : P) (vbs : List B) (rv : Loss) (li : Option ℕ) (evs : List Event)
    (h : valPass fw e p vbs = .ok (pf, rv, li, evs)) :
    pf = p ∧ valPass fw e pf vbs = .ok (pf, rv, li, evs) := by
  obtain ⟨hp, -, -⟩ := valLoopAux_ok fw e vbs 0 p pf 0 rv none li evs h
  exact ⟨hp, by rw [hp] at h ⊢; exact h⟩

/-- Witness for C4 on a concrete validation pass. -/
theorem C4_validation_readonly_witness :
    (0 : ℚ) = 0 ∧ valPass demoFw 0 (0 : ℚ) [4] = .ok (0, 4, some 0, [.valBatch 0 0]) :=
  C4_validation_readonly demoFw 0 0 0 [4] 4 (some 0) [.valBatch 0 0] demo_val_eq

/-- C9: for every number of epochs E ≥ 1, a successful run of the
driver loop leaves the global epoch counter at its value before the run
plus E. -/
theorem C9_epoch_counter {P B ε : Type} (fw : Framework P B ε) (N E : ℕ)
    (tbs vbs : List B) (s s' : RunState P) (evs : List Event)
    (_hE : 1 ≤ E) (h : runEpochs fw N tbs vbs E s = .ok (s', evs)) :
    s'.epoch_number = s.epoch_number + E :=
  (runEpochs_ok_struct fw N tbs vbs E s s' evs h).1

/-- Witness for C9 on a concrete one-epoch run. -/
theorem C9_epoch_counter_witness :
    ({ params := 0, epoch_number := 1, best_vloss := 4, saved := [(0, 0)] } :
        RunState ℚ).epoch_number =
      ({ params := 0, epoch_number := 0, best_vloss := 1000000, saved := [] } :
        RunState ℚ).epoch_number + 1 :=
  C9_epoch_counter demoFw 2 1 [1, 2, 100] [4] _ _ _ (le_refl 1)
    (demo_run_eq :
      runEpochs demoFw 2 [1, 2, 100] [4] 1
        { params := 0, epoch_number := 0, best_vloss := 1000000, saved := [] } = _)

/-- C10: with an empty validation sequence the per-epoch evaluation
aborts with the unbound-loop-variable error (`avg_vloss` divides by
`i + 1` for the loop variable `i` of a loop that never ran) before any
epoch data point or best-tracker update; and for a successful validation
pass the loop variable is bound exactly when the validation sequence is
non-empty, so the mean is only defined in that case. -/
theorem C10_empty_validation {P B ε : Type} (fw : Framework P B ε) (N : ℕ)
    (tbs : List B) (s : RunState P) (r : P × Loss × Loss × List Event)
    (ht : train_one_epoch fw N s.epoch_number s.params tbs = .ok r) :
    epochBody fw N tbs [] s = .error .unboundLoopVar ∧
    ∀ (vbs : List B) (e : ℕ) (p pf : P) (rv : Loss) (li : Option ℕ)
      (evs : List Event),
      valPass fw e p vbs = .ok (pf, rv, li, evs) → (li = none ↔ vbs = []) := by
  refine ⟨epochBody_empty_validation fw N tbs s r ht, ?_⟩
  intro vbs e p pf rv li evs h
  obtain ⟨-, -, hli⟩ := valLoopAux_ok fw e vbs 0 p pf 0 rv none li evs h
  cases vbs with
  | nil => simp [hli]
  | cons b bs => simp [hli]

/-- Witness for C10 on a concrete state whose training pass succeeds. -/
theorem C10_empty_validation_witness :
    epochBody demoFw 2 [1, 2, 100] []
        { params := (0 : ℚ), epoch_number := 0, best_vloss := 1000000, saved := [] } =
      .error .unboundLoopVar ∧
    (some 0 = (none : Option ℕ) ↔ [(4 : ℚ)] = []) := by
  have h := C10_empty_validation demoFw 2 [1, 2, 100]
    { params := (0 : ℚ), epoch_number := 0, best_vloss := 1000000, saved := [] }
    (0, 100, 3 / 2, [.trainBatch 0 0, .trainBatch 0 1, .trainReport 0 (3 / 2) 2,
      .trainBatch 0 2]) demo_train_eq
  exact ⟨h.1, h.2 [4] 0 0 0 4 (some 0) [.valBatch 0 0] demo_val_eq⟩

/-- C8: failures are propagated unmodified and abort the run at once —
a failing forward/loss computation or parameter update ends the training
loop with exactly that error regardless of the remaining batches (no
retry, no transformation), a failing validation loss ends the validation
loop likewise, a failed training pass ends the epoch carrying the
collaborator's error unmodified, and a failed epoch ends the whole
multi-epoch run with that same error, whatever epochs remain. -/
theorem C8_fail_fast {P B ε : Type} (fw : Framework P B ε) :
    (∀ (N L e i : ℕ) (p : P) (rl ll : Loss) (b : B) (bs : List B) (err : ε),
      fw.fwdLoss p true b = .error err →
      trainLoopAux fw N L e i p rl ll (b :: bs) = .error err) ∧
    (∀ (N L e i : ℕ) (p : P) (rl ll : Loss) (b : B) (bs : List B) (l : Loss) (err : ε),
      fw.fwdLoss p true b = .ok l → fw.updParams p b = .error err →
      trainLoopAux fw N L e i p rl ll (b :: bs) = .error err) ∧
    (∀ (e i : ℕ) (p : P) (rv : Loss) (li : Option ℕ) (b : B) (bs : List B) (err : ε),
      fw.fwdLoss p false b = .error err →
      valLoopAux fw e i p rv li (b :: bs) = .error err) ∧
    (∀ (N : ℕ) (tbs vbs : List B) (s : RunState P) (err : ε),
      train_one_epoch fw N s.epoch_number s.params tbs = .error err →
      epochBody fw N tbs vbs s = .error (.ext err)) ∧
    (∀ (N : ℕ) (tbs vbs : List B) (E : ℕ) (s : RunState P) (er : RunError ε),
      epochBody fw N tbs vbs s = .error er →
      runEpochs fw N tbs vbs (E + 1) s = .error er) :=
  ⟨fun N L e i p rl ll b bs err hf =>
      trainLoopAux_fwd_error fw N L e i p rl ll b bs err hf,
   fun N L e i p rl ll b bs l err hf hu =>
      trainLoopAux_upd_error fw N L e i p rl ll b bs l err hf hu,
   fun e i p rv li b bs err hf =>
      valLoopAux_fwd_error fw e i p rv li b bs err hf,
   fun N tbs vbs s err ht => epochBody_train_error fw N tbs vbs s err ht,
   fun N tbs vbs E s er h1 => runEpochs_epoch_error fw N tbs vbs E s er h1⟩

/-- Witness for C8 with a concretely failing framework: batch 13 fails
the scoring function, batch 7 fails the update. -/
theorem C8_fail_fast_witness :
    trainLoopAux failFw 2 3 0 0 (0 : ℚ) 0 0 [13, 1] = .error "score-boom" ∧
    trainLoopAux failFw 2 3 0 0 (0 : ℚ) 0 0 [7, 1] = .error "update-boom" ∧
    valLoopAux failFw 0 0 (0 : ℚ) 0 none [13, 1] = .error "score-boom" ∧
    epochBody failFw 2 [13] [4]
        { params := (0 : ℚ), epoch_number := 0, best_vloss := 1000000, saved := [] } =
      .error (.ext "score-boom") ∧
    runEpochs failFw 2 [13] [4] 1
        { params := (0 : ℚ), epoch_number := 0, best_vloss := 1000000, saved := [] } =
      .error (.ext "score-boom") := by
  have hf13t : failFw.fwdLoss (0 : ℚ) true 13 = .error "score-boom" := by
    norm_num [failFw]
  have hf13f : failFw.fwdLoss (0 : ℚ) false 13 = .error "score-boom" := by
    norm_num [failFw]
  have hf7 : failFw.fwdLoss (0 : ℚ) true 7 = .ok 7 := by norm_num [failFw]
  have hu7 : failFw.updParams (0 : ℚ) 7 = .error "update-boom" := by
    norm_num [failFw]
  have ht : train_one_epoch failFw 2 0 (0 : ℚ) [13] = .error "score-boom" :=
    (C8_fail_fast failFw).1 2 1 0 0 0 0 0 13 [] "score-boom" hf13t
  have hb : epochBody failFw 2 [13] [4]
      { params := (0 : ℚ), epoch_number := 0, best_vloss := 1000000, saved := [] } =
      .error (.ext "score-boom") :=
    (C8_fail_fast failFw).2.2.2.1 2 [13] [4] _ "score-boom" ht
  exact ⟨(C8_fail_fast failFw).1 2 3 0 0 0 0 0 13 [1] "score-boom" hf13t,
    (C8_fail_fast failFw).2.1 2 3 0 0 0 0 0 7 [1] 7 "update-boom" hf7 hu7,
    (C8_fail_fast failFw).2.2.1 0 0 0 0 none 13 [1] "score-boom" hf13f,
    hb,
    (C8_fail_fast failFw).2.2.2.2 2 [13] [4] 0 _ (.ext "score-boom") hb⟩

/-- C3: per epoch, with `v` the reported mean validation loss, the
best-so-far tracker is replaced exactly when `v` is strictly below it,
and in that case the threshold update and the snapshot persist happen
together (the snapshot list grows by the saved copy of the current
parameters and a save event is emitted); otherwise neither changes and
no save event is emitted. -/
theorem C3_best_replacement {P B ε : Type} (fw : Framework P B ε) (N : ℕ)
    (tbs vbs : List B) (s s' : RunState P) (evs : List Event)
    (h : epochBody fw N tbs vbs s = .ok (s', evs)) :
    ∃ tm v, Event.epochReport (s.epoch_number + 1) tm v ∈ evs ∧
      (v < s.best_vloss →
        s'.best_vloss = v ∧ s'.saved = s.saved ++ [(s.epoch_number, s'.params)] ∧
          Event.save s.epoch_number ∈ evs) ∧
      (¬ v < s.best_vloss →
        s'.best_vloss = s.best_vloss ∧ s'.saved = s.saved ∧
          ∀ e', Event.save e' ∉ evs) := by
  obtain ⟨-, tevs, vevs, avgl, avgv, tail, hevs, htr, hvr, hor⟩ :=
    epochBody_ok_struct fw N tbs vbs s s' evs h
  refine ⟨avgl, avgv, by rw [hevs]; simp, ?_, ?_⟩
  · intro hlt
    rcases hor with ⟨_, htail, hb, hs⟩ | ⟨hn, _, _, _⟩
    · exact ⟨hb, hs, by rw [hevs, htail]; simp⟩
    · exact absurd hlt hn
  · intro hge
    rcases hor with ⟨hlt, _, _, _⟩ | ⟨_, htail, hb, hs⟩
    · exact absurd hlt hge
    · refine ⟨hb, hs, fun e' hmem => ?_⟩
      rw [hevs, htail] at hmem
      simp only [List.append_assoc, List.mem_append, List.mem_cons,
        List.not_mem_nil, or_false] at hmem
      rcases hmem with hm | hm | hm
      · exact (htr _ hm).elim
      · exact (hvr _ hm).elim
      · exact Event.noConfusion hm

/-- Witness for C3 on the concrete epoch whose mean validation loss 4
beats the fresh sentinel. -/
theorem C3_best_replacement_witness :
    ∃ tm v, Event.epochReport 1 tm v ∈
        [Event.trainBatch 0 0, Event.trainBatch 0 1, Event.trainReport 0 (3 / 2) 2,
         Event.trainBatch 0 2, Event.valBatch 0 0, Event.epochReport 1 (3 / 2) 4,
         Event.save 0] ∧
      (v < 1000000 → (4 : ℚ) = v ∧ [((0 : ℕ), (0 : ℚ))] = [] ++ [(0, 0)] ∧
        Event.save 0 ∈
          [Event.trainBatch 0 0, Event.trainBatch 0 1, Event.trainReport 0 (3 / 2) 2,
           Event.trainBatch 0 2, Event.valBatch 0 0, Event.epochReport 1 (3 / 2) 4,
           Event.save 0]) ∧
      (¬ v < 1000000 → (4 : ℚ) = 1000000 ∧ [((0 : ℕ), (0 : ℚ))] = [] ∧
        ∀ e', Event.save e' ∉
          [Event.trainBatch 0 0, Event.trainBatch 0 1, Event.trainReport 0 (3 / 2) 2,
           Event.trainBatch 0 2, Event.valBatch 0 0, Event.epochReport 1 (3 / 2) 4,
           Event.save 0]) :=
  C3_best_replacement demoFw 2 [1, 2, 100] [4] _ _ _ demo_epochBody_eq

/-- C6: the running-loss accumulator is reset to 0 by each report — on a
window-ending batch the loop emits the report and continues with the
accumulator literally 0 — and no reported mean covers more than `N`
batches' worth of loss: every report of an epoch averages exactly the
`N` per-batch losses of its own window, with divisor `N`. -/
theorem C6_accumulator_windows {P B ε : Type} (fw : Framework P B ε) (N L e : ℕ)
    (hN : 0 < N) :
    (∀ (i : ℕ) (p p' : P) (rl ll l : Loss) (b : B) (bs : List B),
      i % N = N - 1 → fw.fwdLoss p true b = .ok l → fw.updParams p b = .ok p' →
      trainLoopAux fw N L e i p rl ll (b :: bs) =
        Except.map (fun r => (r.1, r.2.1, r.2.2.1,
            Event.trainBatch e i ::
              Event.trainReport e ((rl + l) / (N : ℚ)) (e * L + i + 1) :: r.2.2.2))
          (trainLoopAux fw N L e (i + 1) p' 0 ((rl + l) / (N : ℚ)) bs)) ∧
    (∀ (p pf : P) (rlf llf : Loss) (evs : List Event) (tbs : List B),
      train_one_epoch fw N e p tbs = .ok (pf, rlf, llf, evs) →
      ∃ ls, lossParams fw p tbs = .ok (ls, pf) ∧ ls.length = tbs.length ∧
        evs.filter isReport = (List.range (tbs.length / N)).map fun k =>
          Event.trainReport e (((ls.drop (k * N)).take N).sum / (N : ℚ))
            (e * tbs.length + (k + 1) * N)) :=
  ⟨fun i p p' rl ll l b bs hi hf hu =>
      trainLoopAux_report_reset fw N L e i p p' rl ll l b bs hi hf hu,
   fun p pf rlf llf evs tbs h =>
      train_one_epoch_reports fw N e hN p pf rlf llf evs tbs h⟩

/-- Witness for C6: the reset on a concrete window-ending batch, and the
window equation on the concrete three-batch pass. -/
theorem C6_accumulator_windows_witness :
    (trainLoopAux demoFw 2 3 0 1 (0 : ℚ) 1 0 [5] =
      Except.map (fun r => (r.1, r.2.1, r.2.2.1,
          Event.trainBatch 0 1 ::
            Event.trainReport 0 ((1 + 5) / (2 : ℚ)) (0 * 3 + 1 + 1) :: r.2.2.2))
        (trainLoopAux demoFw 2 3 0 2 (0 : ℚ) 0 ((1 + 5) / (2 : ℚ)) [])) ∧
    ∃ ls, lossParams demoFw (0 : ℚ) [1, 2, 100] = .ok (ls, 0) ∧
      ls.length = ([1, 2, 100] : List ℚ).length ∧
      ([Event.trainBatch 0 0, Event.trainBatch 0 1, Event.trainReport 0 (3 / 2) 2,
        Event.trainBatch 0 2].filter isReport) =
        (List.range (([1, 2, 100] : List ℚ).length / 2)).map fun k =>
          Event.trainReport 0 (((ls.drop (k * 2)).take 2).sum / (2 : ℚ))
            (0 * ([1, 2, 100] : List ℚ).length + (k + 1) * 2) := by
  have hc := C6_accumulator_windows demoFw 2 3 0 (by norm_num)
  refine ⟨hc.1 1 0 0 1 0 5 5 [] (by norm_num) (by norm_num [demoFw]) (by norm_num [demoFw]), ?_⟩
  exact (C6_accumulator_windows demoFw 2 ([1, 2, 100] : List ℚ).length 0 (by norm_num)).2
    0 0 100 (3 / 2)
    [Event.trainBatch 0 0, Event.trainBatch 0 1, Event.trainReport 0 (3 / 2) 2,
     Event.trainBatch 0 2] [1, 2, 100] demo_train_eq

/-- C7: per successful epoch the training-progress report steps are
exactly `epoch_number * L + (k + 1) * N` for the `k`-th complete window
of `N` batches — one report after every `N` training batches; across a
whole successful run the report step tags are strictly increasing in
emission order; and in the concrete scenario E = 1, four training
batches, N = 2, exactly two training-progress reports are emitted, both
before the single end-of-epoch combined report. -/
theorem C7_report_steps {P B ε : Type} (fw : Framework P B ε) (N : ℕ) (hN : 0 < N)
    (tbs vbs : List B) :
    (∀ (s s' : RunState P) (evs : List Event),
      epochBody fw N tbs vbs s = .ok (s', evs) →
      stepsOf evs = (List.range (tbs.length / N)).map fun k =>
        s.epoch_number * tbs.length + (k + 1) * N) ∧
    (∀ (E : ℕ) (s s' : RunState P) (evs : List Event),
      runEpochs fw N tbs vbs E s = .ok (s', evs) →
      (stepsOf evs).Pairwise (· < ·)) ∧
    (trainingRun demoFw 2 [1, 3, 5, 7] [4] 1 0 0 =
      .ok ({ params := 0, epoch_number := 1, best_vloss := 4, saved := [(0, 0)] },
        [.trainBatch 0 0, .trainBatch 0 1, .trainReport 0 2 2,
         .trainBatch 0 2, .trainBatch 0 3, .trainReport 0 6 4,
         .valBatch 0 0, .epochReport 1 6 4, .save 0]) ∧
      (([Event.trainBatch 0 0, Event.trainBatch 0 1, Event.trainReport 0 2 2,
         Event.trainBatch 0 2, Event.trainBatch 0 3, Event.trainReport 0 6 4,
         Event.valBatch 0 0, Event.epochReport 1 6 4,
         Event.save 0].takeWhile fun x => !isEpochReport x).filter isReport).length = 2 ∧
      ([Event.trainBatch 0 0, Event.trainBatch 0 1, Event.trainReport 0 2 2,
        Event.trainBatch 0 2, Event.trainBatch 0 3, Event.trainReport 0 6 4,
        Event.valBatch 0 0, Event.epochReport 1 6 4,
        Event.save 0].filter isEpochReport).length = 1) :=
  ⟨fun s s' evs h => epochBody_steps fw N hN tbs vbs s s' evs h,
   fun E s s' evs h => (runEpochs_steps fw N hN tbs vbs E s s' evs h).1,
   demo_run4_eq, rfl, rfl⟩

/-- Witness for C7 on the concrete one-epoch runs. -/
theorem C7_report_steps_witness :
    (stepsOf [Event.trainBatch 0 0, Event.trainBatch 0 1,
        Event.trainReport 0 (3 / 2) 2, Event.trainBatch 0 2, Event.valBatch 0 0,
        Event.epochReport 1 (3 / 2) 4, Event.save 0] =
      (List.range (([1, 2, 100] : List ℚ).length / 2)).map fun k =>
        0 * ([1, 2, 100] : List ℚ).length + (k + 1) * 2) ∧
    (stepsOf [Event.trainBatch 0 0, Event.trainBatch 0 1,
        Event.trainReport 0 (3 / 2) 2, Event.trainBatch 0 2, Event.valBatch 0 0,
        Event.epochReport 1 (3 / 2) 4, Event.save 0]).Pairwise (· < ·) := by
  have hc := C7_report_steps demoFw 2 (by norm_num) ([1, 2, 100] : List ℚ) [4]
  exact ⟨hc.1 _ _ _ demo_epochBody_eq,
    hc.2.1 1 _ _ _
      (demo_run_eq :
        runEpochs demoFw 2 [1, 2, 100] [4] 1
          { params := 0, epoch_number := 0, best_vloss := 1000000, saved := [] } = _)⟩

/-- C1 counterexample: a 3-batch training sequence with N = 2 and
per-batch losses 1, 2, 100.  The claim predicts an end-of-epoch partial
report averaging only batch 3 (mean 100, divisor 1).  In the run's full
trace the only training-progress report is the full-window mean 3/2 of
batches 1–2 (divisor 2), the end-of-epoch combined report re-uses that
mean 3/2, and no report with mean 100 exists. -/
theorem C1_counterexample :
    trainingRun demoFw 2 [1, 2, 100] [4] 1 0 0 =
      .ok ({ params := 0, epoch_number := 1, best_vloss := 4, saved := [(0, 0)] },
        [.trainBatch 0 0, .trainBatch 0 1, .trainReport 0 (3 / 2) 2, .trainBatch 0 2,
         .valBatch 0 0, .epochReport 1 (3 / 2) 4, .save 0]) ∧
    ([Event.trainBatch 0 0, Event.trainBatch 0 1, Event.trainReport 0 (3 / 2) 2,
      Event.trainBatch 0 2, Event.valBatch 0 0, Event.epochReport 1 (3 / 2) 4,
      Event.save 0].filter isReport) = [Event.trainReport 0 (3 / 2) 2] ∧
    (3 / 2 : ℚ) ≠ 100 :=
  ⟨demo_run_eq, rfl, by norm_num⟩

/-- C1 (amended): no final partial report exists — a successful training
pass emits exactly `⌊L/N⌋` training-progress reports, one per complete
window of `N` batches, each averaging exactly its window's `N` losses
with divisor `N`; the trailing `L mod N` batches appear in no report. -/
theorem C1_amended_reports {P B ε : Type} (fw : Framework P B ε) (N e : ℕ)
    (hN : 0 < N) (p pf : P) (rlf llf : Loss) (evs : List Event) (tbs : List B)
    (h : train_one_epoch fw N e p tbs = .ok (pf, rlf, llf, evs)) :
    (evs.filter isReport).length = tbs.length / N ∧
    ∃ ls, lossParams fw p tbs = .ok (ls, pf) ∧ ls.length = tbs.length ∧
      evs.filter isReport = (List.range (tbs.length / N)).map fun k =>
        Event.trainReport e (((ls.drop (k * N)).take N).sum / (N : ℚ))
          (e * tbs.length + (k + 1) * N) := by
  obtain ⟨ls, hls, hlen, hfil⟩ :=
    train_one_epoch_reports fw N e hN p pf rlf llf evs tbs h
  exact ⟨by rw [hfil]; simp, ls, hls, hlen, hfil⟩

/-- Witness for the amended C1 on the concrete three-batch pass. -/
theorem C1_amended_reports_witness :
    (([Event.trainBatch 0 0, Event.trainBatch 0 1, Event.trainReport 0 (3 / 2) 2,
       Event.trainBatch 0 2].filter isReport).length =
      ([1, 2, 100] : List ℚ).length / 2) ∧
    ∃ ls, lossParams demoFw (0 : ℚ) [1, 2, 100] = .ok (ls, 0) ∧
      ls.length = ([1, 2, 100] : List ℚ).length ∧
      ([Event.trainBatch 0 0, Event.trainBatch 0 1, Event.trainReport 0 (3 / 2) 2,
        Event.trainBatch 0 2].filter isReport) =
        (List.range (([1, 2, 100] : List ℚ).length / 2)).map fun k =>
          Event.trainReport 0 (((ls.drop (k * 2)).take 2).sum / (2 : ℚ))
            (0 * ([1, 2, 100] : List ℚ).length + (k + 1) * 2) :=
  C1_amended_reports demoFw 2 0 (by norm_num) 0 0 100 (3 / 2)
    [Event.trainBatch 0 0, Event.trainBatch 0 1, Event.trainReport 0 (3 / 2) 2,
     Event.trainBatch 0 2] [1, 2, 100] demo_train_eq

/-- C2 counterexample: in the TensorBoard notebook's loop with N = 1,
two training batches and one validation batch, the trace shows a
validation batch of epoch 0 evaluated (index 1) before training batch 1
of the same epoch is processed (index 3): training and validation are
interleaved inside the epoch, contradicting the claim that every
training batch of an epoch is processed before any validation batch of
that epoch. -/
theorem C2_counterexample :
    tbRun demoFw 1 [10, 20] [5] 0 =
      .ok (0, 0, [.trainBatch 0 0, .valBatch 0 0, .epochReport 0 10 5,
                  .trainBatch 0 1, .valBatch 0 0, .epochReport 1 20 5]) ∧
    [Event.trainBatch 0 0, Event.valBatch 0 0, Event.epochReport 0 10 5,
     Event.trainBatch 0 1, Event.valBatch 0 0, Event.epochReport 1 20 5][1]? =
      some (Event.valBatch 0 0) ∧
    [Event.trainBatch 0 0, Event.valBatch 0 0, Event.epochReport 0 10 5,
     Event.trainBatch 0 1, Event.valBatch 0 0, Event.epochReport 1 20 5][3]? =
      some (Event.trainBatch 0 1) :=
  ⟨demo_tbRun_eq, rfl, rfl⟩

/-- C2 (amended): in the multi-epoch driver the property does hold — a
successful run's trace decomposes into one block per epoch, each block
being all of that epoch's training-phase events, then all its
validation-batch events, then its combined report, then at most one save
of that epoch's snapshot; so within each driver epoch every training
batch precedes every validation batch, and saves happen strictly between
epochs, never between two batch updates.  (The TensorBoard notebook's
single-epoch loop instead interleaves a full validation pass after every
N-th training batch — see the counterexample.) -/
theorem C2_amended_epoch_blocks {P B ε : Type} (fw : Framework P B ε) (N E : ℕ)
    (tbs vbs : List B) (s s' : RunState P) (evs : List Event)
    (h : runEpochs fw N tbs vbs E s = .ok (s', evs)) :
    EpochBlocks s.epoch_number E evs :=
  (runEpochs_ok_struct fw N tbs vbs E s s' evs h).2

/-- Witness for the amended C2 on the concrete one-epoch run. -/
theorem C2_amended_epoch_blocks_witness :
    EpochBlocks 0 1
      [Event.trainBatch 0 0, Event.trainBatch 0 1, Event.trainReport 0 (3 / 2) 2,
       Event.trainBatch 0 2, Event.valBatch 0 0, Event.epochReport 1 (3 / 2) 4,
       Event.save 0] :=
  C2_amended_epoch_blocks demoFw 2 1 [1, 2, 100] [4] _ _ _
    (demo_run_eq :
      runEpochs demoFw 2 [1, 2, 100] [4] 1
        { params := 0, epoch_number := 0, best_vloss := 1000000, saved := [] } = _)

/-- C5 counterexample: a possible first-epoch mean validation loss,
2000000, is not strictly below the initialization value 1000000 of
`best_vloss`, and the run's first epoch then leaves the tracker at
1000000 and persists no snapshot — the sentinel is not "worse than
anything" and the first epoch does not always replace the tracker. -/
theorem C5_counterexample :
    trainingRun demoFw 1 [3] [2000000] 1 0 0 =
      .ok ({ params := 0, epoch_number := 1, best_vloss := 1000000, saved := [] },
        [.trainBatch 0 0, .trainReport 0 3 1, .valBatch 0 0,
         .epochReport 1 3 2000000]) ∧
    ¬ (2000000 : ℚ) < 1000000 :=
  ⟨demo_runBig_eq, by norm_num⟩

/-- C5 (amended): the tracker starts at the literal sentinel 1000000.0,
and the first epoch of a fresh run replaces it and persists a snapshot
exactly when its mean validation loss `v` is strictly below 1000000;
for `v ≥ 1000000` the tracker keeps the sentinel and nothing is
persisted. -/
theorem C5_amended_sentinel {P B ε : Type} (fw : Framework P B ε) (N : ℕ)
    (tbs vbs : List B) (p0 : P) (e0 : ℕ) (s' : RunState P) (evs : List Event)
    (h : trainingRun fw N tbs vbs 1 p0 e0 = .ok (s', evs)) :
    ∃ tm v, Event.epochReport (e0 + 1) tm v ∈ evs ∧
      (v < 1000000 → s'.best_vloss = v ∧ s'.saved = [(e0, s'.params)]) ∧
      (¬ v < 1000000 → s'.best_vloss = 1000000 ∧ s'.saved = []) := by
  have h' : runEpochs fw N tbs vbs 1
      { params := p0, epoch_number := e0, best_vloss := 1000000, saved := [] } =
      .ok (s', evs) := h
  simp only [runEpochs] at h'
  cases hb : epochBody fw N tbs vbs
      { params := p0, epoch_number := e0, best_vloss := 1000000, saved := [] } with
  | error err => rw [hb] at h'; simp [except_bind_error] at h'
  | ok r1 =>
    obtain ⟨s1, evs1⟩ := r1
    rw [hb] at h'
    simp only [except_bind_ok, Except.ok.injEq, Prod.mk.injEq, List.append_nil] at h'
    obtain ⟨hs1, hevs1⟩ := h'
    obtain ⟨-, tevs, vevs, avgl, avgv, tail, hevsb, htr, hvr, hor⟩ :=
      epochBody_ok_struct fw N tbs vbs _ s1 evs1 hb
    refine ⟨avgl, avgv, ?_, ?_, ?_⟩
    · rw [← hevs1, hevsb]; simp
    · intro hlt
      rcases hor with ⟨_, _, hbv, hsv⟩ | ⟨hn, _, _, _⟩
      · rw [← hs1]
        exact ⟨hbv, by rw [hsv]; simp⟩
      · exact absurd hlt hn
    · intro hge
      rcases hor with ⟨hlt, _, _, _⟩ | ⟨_, _, hbv, hsv⟩
      · exact absurd hlt hge
      · rw [← hs1]
        exact ⟨hbv, hsv⟩

/-- Witness for the amended C5 on the concrete fresh run whose first
mean validation loss 4 beats the sentinel. -/
theorem C5_amended_sentinel_witness :
    ∃ tm v, Event.epochReport 1 tm v ∈
        [Event.trainBatch 0 0, Event.trainBatch 0 1, Event.trainReport 0 (3 / 2) 2,
         Event.trainBatch 0 2, Event.valBatch 0 0, Event.epochReport 1 (3 / 2) 4,
         Event.save 0] ∧
      (v < 1000000 → (4 : ℚ) = v ∧ [((0 : ℕ), (0 : ℚ))] = [(0, 0)]) ∧
      (¬ v < 1000000 → (4 : ℚ) = 1000000 ∧ [((0 : ℕ), (0 : ℚ))] = []) :=
  C5_amended_sentinel demoFw 2 [1, 2, 100] [4] 0 0 _ _ demo_run_eq
